import Mathlib

/-!
Formal model of the end-of-day scanner and trade executor implemented in
`bulk_scanner.py`.

The embedding covers the computational pipeline of the script:

* `execute_alpaca_trades` (sizing and bracket-order planning) is embedded as
  a pure function from the candidate table, the account equity, the day-trade
  count and the list of already-held tickers to an outcome tag plus the list
  of orders actually built.  Python floats are idealised as rationals;
  Python `int()` truncation and `round()` banker rounding are modelled
  explicitly (`pyInt`, `pyRound`).
* The per-symbol part of `run_main` (lines 243-278) is embedded as
  `processSymbol`: NaN-clean-up (`dropna`), the 50-bar minimum, the liquidity
  gate, the trend/momentum signal on the last bar, the 3-bar-forward walk of
  historical signal bars, and the 55% win-rate acceptance.  The numeric
  indicator columns produced by `pandas_ta` enter the model as data: the SMA
  columns are the rolling means the library computes, the ADX column is an
  arbitrary `Nat → Option Rat` input (`none` standing for NaN), so every
  theorem below holds for whatever values the library returns.
* `sort_values(by="win_rate", ascending=False)` is modelled through the pandas
  `nargsort`, which reverses the column, runs an ascending argsort and
  reverses the resulting indexer; for inputs below the numpy small-array
  cutoff the underlying argsort is a stable insertion sort, so the model
  uses a stable ascending insertion sort between the two reversals.  Only
  the permutation and sortedness facts, which hold for every sort kind,
  are relied upon by the allocation proofs.
-/

set_option maxRecDepth 20000
set_option maxHeartbeats 2000000

-- Rational arithmetic is sealed in Batteries; reopen it so that concrete
-- runs of the model reduce under `decide` (kernel checking is unaffected).
set_option allowUnsafeReducibility true in
attribute [semireducible] Rat.mul Rat.inv Rat.add Rat.sub Rat.ofScientific

/-- One row of the `hits` table built by `run_main`:
`{"ticker": symbol, "win_rate": ..., "price": ...}`. -/
structure Candidate where
  ticker : String
  winRate : ℚ
  price : ℚ
deriving DecidableEq

/-- One bracket order built by `execute_alpaca_trades`: symbol, share
quantity, entry price and the two rounded exit prices. -/
structure Plan where
  symbol : String
  qty : ℤ
  price : ℚ
  takeProfit : ℚ
  stopPrice : ℚ
deriving DecidableEq

/-- The four ways `execute_alpaca_trades` can return: the early exit on an
empty dataframe, the PDT block, the no-fresh-setups exit, and the normal
path that submits orders. -/
inductive ExecOutcome where
  | emptyData
  | blocked
  | noNewSetups
  | submitted
deriving DecidableEq

/-- Result of the execution engine: the reported outcome together with the
orders submitted. -/
structure ExecResult where
  outcome : ExecOutcome
  plans : List Plan
deriving DecidableEq

/-- Python `int()` applied to a real number: truncation toward zero. -/
def pyInt (q : ℚ) : ℤ :=
  if 0 ≤ q then ⌊q⌋ else -⌊-q⌋

/-- Round a rational to the nearest integer, ties to the even integer
(Python `round` semantics, idealised over the rationals). -/
def halfEvenZ (x : ℚ) : ℤ :=
  if x - ⌊x⌋ = 1 / 2 then (if ⌊x⌋ % 2 = 0 then ⌊x⌋ else ⌊x⌋ + 1) else round x

/-- Python `round(q, nd)`: banker rounding at `nd` decimal places. -/
def pyRound (nd : ℕ) (q : ℚ) : ℚ :=
  (halfEvenZ (q * 10 ^ nd) : ℚ) / 10 ^ nd

/-- Comparison key used by `sort_values(by="win_rate")`. -/
def wrLE (a b : Candidate) : Prop :=
  a.winRate ≤ b.winRate

instance : DecidableRel wrLE :=
  fun a b => (inferInstance : Decidable (a.winRate ≤ b.winRate))

instance : IsTotal Candidate wrLE :=
  ⟨fun a b => le_total a.winRate b.winRate⟩

instance : IsTrans Candidate wrLE :=
  ⟨fun _ _ _ h h2 => le_trans h h2⟩

/-- Model of `fresh_setups.sort_values(by="win_rate", ascending=False)`:
pandas `nargsort` reverses the column, argsorts it ascending and reverses
the indexer; the ascending argsort is modelled by a stable insertion sort
(exact for inputs below the numpy small-array cutoff).  The theorems below
use only that the output is a permutation of the input sorted
non-increasingly by `win_rate`, which holds for every sort kind. -/
def sortDescWinRate (l : List Candidate) : List Candidate :=
  (List.insertionSort wrLE l.reverse).reverse

/-- The body of the order loop in `execute_alpaca_trades` for one candidate:
`qty = int(slot_size / price)`; an order is built only when `qty > 0`, with
take profit `round(price * 1.03, 2)` and stop `round(price * 0.99, 2)`. -/
def planOf (slot : ℚ) (c : Candidate) : Option Plan :=
  if 0 < pyInt (slot / c.price) then
    some ⟨c.ticker, pyInt (slot / c.price), c.price,
      pyRound 2 (c.price * (103 / 100)), pyRound 2 (c.price * (99 / 100))⟩
  else none

/-- Embedding of `execute_alpaca_trades` (lines 97-158).  Inputs: the
`winning_df` rows, the account equity, `account.daytrade_count`, and the
tickers of currently open positions (`cancel_orders()` has already removed
every pending order at this point, so open positions are the whole exclusion
set).  Mirrors the control flow of the source: empty-dataframe early exit, PDT
guard (`equity < 30000` and `daytrade_count >= 2`), filter of held tickers,
`num_setups = min(len(fresh), 20)`, `slot_size = min(equity/num_setups,
5000)`, then the order loop over the sorted head. -/
def execute_alpaca_trades (winning : List Candidate) (equity : ℚ)
    (daytradeCount : ℕ) (existingTickers : List String) : ExecResult :=
  if winning.isEmpty then ⟨.emptyData, []⟩
  else if equity < 30000 ∧ 2 ≤ daytradeCount then ⟨.blocked, []⟩
  else
    let freshSetups := winning.filter (fun c => !(existingTickers.contains c.ticker))
    if min freshSetups.length 20 = 0 then ⟨.noNewSetups, []⟩
    else
      let slotSize := min (equity / (min freshSetups.length 20 : ℕ)) 5000
      ⟨.submitted, ((sortDescWinRate freshSetups).take 20).filterMap (planOf slotSize)⟩

/-- Total notional committed by a list of plans: sum of quantity times
entry price. -/
def notional (ps : List Plan) : ℚ :=
  (ps.map (fun p => (p.qty : ℚ) * p.price)).sum

/-- One row of the raw dataframe downloaded by `yf.download`: any field may
be NaN (`none`). -/
structure RawBar where
  op : Option ℚ
  hi : Option ℚ
  lo : Option ℚ
  cl : Option ℚ
  vol : Option ℚ
deriving DecidableEq

/-- One row of the dataframe after `df.dropna()`: all five columns hold
actual numbers. -/
structure Bar where
  op : ℚ
  hi : ℚ
  lo : ℚ
  cl : ℚ
  vol : ℚ
deriving DecidableEq

/-- A raw row survives `dropna()` exactly when none of its fields is NaN. -/
def RawBar.toBar (r : RawBar) : Option Bar :=
  match r.op, r.hi, r.lo, r.cl, r.vol with
  | some o, some h, some l, some c, some v => some ⟨o, h, l, c, v⟩
  | _, _, _, _, _ => none

/-- `df.dropna()`: keep the rows with no NaN field. -/
def dropna (raw : List RawBar) : List Bar :=
  raw.filterMap RawBar.toBar

/-- The `Close` column of a cleaned dataframe. -/
def closes (df : List Bar) : List ℚ :=
  df.map Bar.cl

/-- The `Volume` column of a cleaned dataframe. -/
def vols (df : List Bar) : List ℚ :=
  df.map Bar.vol

/-- Positional access into the `Close` column (the script only uses indices
that exist in the frame; out-of-range positions default to 0 in the model). -/
def closeAt (df : List Bar) (i : ℕ) : ℚ :=
  (closes df).getD i 0

/-- Positional access into the `Volume` column. -/
def volAt (df : List Bar) (i : ℕ) : ℚ :=
  (vols df).getD i 0

/-- `df["Close"].rolling(p).mean()` at row `i`: NaN (`none`) for the first
`p - 1` rows, otherwise the mean of the window of the `p` closes ending at
`i`.  This is the `SMA_10` / `SMA_20` column `pandas_ta` appends. -/
def smaAt (p : ℕ) (df : List Bar) (i : ℕ) : Option ℚ :=
  if i + 1 < p then none
  else some ((((closes df).take (i + 1)).drop (i + 1 - p)).sum / (p : ℚ))

/-- `df["ADX"].shift(1)` at row `i`: NaN on the first row, the previous
ADX of the previous row otherwise. -/
def prevAdx (adx : ℕ → Option ℚ) (i : ℕ) : Option ℚ :=
  if i = 0 then none else adx (i - 1)

/-- A pandas `>` comparison in which either side may be NaN: NaN compares
false against everything (also against itself). -/
def oGT : Option ℚ → Option ℚ → Bool
  | some a, some b => decide (b < a)
  | _, _ => false

/-- The trading rule of lines 261-262, evaluated at row `i`:
`Close > SMA10`, `SMA10 > SMA20` and `ADX > ADX.shift(1)`, every comparison
failing on NaN.  The live check on `today`/`yesterday` (line 261) is this
predicate at the last row. -/
def signalAt (df : List Bar) (adx : ℕ → Option ℚ) (i : ℕ) : Bool :=
  oGT (some (closeAt df i)) (smaAt 10 df i) &&
    oGT (smaAt 10 df i) (smaAt 20 df i) &&
    oGT (adx i) (prevAdx adx i)

/-- The positional indices of `hist` (line 262): every row of the frame on
which the rule fires, in chronological order. -/
def histIndices (df : List Bar) (adx : ℕ → Option ℚ) : List ℕ :=
  (List.range df.length).filter (fun i => signalAt df adx i)

/-- One iteration of the backtest loop (lines 264-268) on the running
`(wins, total)` pair: only events with a bar 3 sessions later are counted,
and such an event is a win iff the close 3 bars later exceeds the close at
the event. -/
def btStep (df : List Bar) (wt : ℕ × ℕ) (i : ℕ) : ℕ × ℕ :=
  if i + 3 < df.length then
    ((if closeAt df i < closeAt df (i + 3) then wt.1 + 1 else wt.1), wt.2 + 1)
  else wt

/-- The backtest of lines 263-268: fold the loop body over `hist`,
returning `(wins, total)`. -/
def backtest (df : List Bar) (adx : ℕ → Option ℚ) : ℕ × ℕ :=
  (histIndices df adx).foldl (btStep df) (0, 0)

/-- Lines 270-271: `real_win_rate = (wins / total) * 100`, produced only
when `total > 0`. -/
def winRate (df : List Bar) (adx : ℕ → Option ℚ) : Option ℚ :=
  if 0 < (backtest df adx).2 then
    some (((backtest df adx).1 : ℚ) / ((backtest df adx).2 : ℚ) * 100)
  else none

/-- Lines 270-277: a hit is appended only when a win rate exists and is at
least 55; the stored row rounds the rate to 1 decimal and the price to 2. -/
def mkCandidate (sym : String) (price : ℚ) (df : List Bar)
    (adx : ℕ → Option ℚ) : Option Candidate :=
  match winRate df adx with
  | some r => if 55 ≤ r then some ⟨sym, pyRound 1 r, pyRound 2 price⟩ else none
  | none => none

/-- `df["Volume"].iloc[-21:-1]` for a frame long enough to hold it: the 20
volumes preceding (and excluding) the current bar. -/
def volWindow (df : List Bar) : List ℚ :=
  ((vols df).take (df.length - 1)).drop (df.length - 21)

/-- `avg_vol` (line 254): pandas `.mean()` of the trailing window, i.e. its
sum divided by its element count. -/
def avgVol (df : List Bar) : ℚ :=
  (volWindow df).sum / ((volWindow df).length : ℚ)

/-- `price = df["Close"].iloc[-1]` (line 253). -/
def lastClose (df : List Bar) : ℚ :=
  closeAt df (df.length - 1)

/-- `df["Volume"].iloc[-1]` (line 256). -/
def lastVol (df : List Bar) : ℚ :=
  volAt df (df.length - 1)

/-- The liquidity gate of line 256: the symbol survives unless
`price < 1.0`, or relative volume below 1.5, or trailing average volume
below 300000. -/
def passesLiquidity (df : List Bar) : Bool :=
  !(decide (lastClose df < 1) || decide (lastVol df / avgVol df < 3 / 2) ||
    decide (avgVol df < 300000))

/-- The per-symbol body of the scan loop (lines 244-277), as a pure
function from the raw frame of the symbol and its `pandas_ta` ADX column to an
optional hit: empty-frame and all-NaN-close rejection (line 248), `dropna`
and the 50-bar minimum (lines 250-251), the liquidity gate (lines 253-256),
then the live signal on the last bar and the backtest-based acceptance.
Every rejection and every caught per-symbol exception yields `none`. -/
def processSymbol (sym : String) (raw : List RawBar)
    (adx : ℕ → Option ℚ) : Option Candidate :=
  if raw.isEmpty then none
  else if (raw.map RawBar.cl).all (fun c => c.isNone) then none
  else
    let df := dropna raw
    if df.length < 50 then none
    else if !passesLiquidity df then none
    else if signalAt df adx (df.length - 1) then
      mkCandidate sym (lastClose df) df adx
    else none

/-- One per-symbol slice of the scan: its ticker, its raw downloaded frame
and the ADX column `pandas_ta` computes for it. -/
structure SymbolInput where
  sym : String
  raw : List RawBar
  adx : ℕ → Option ℚ

/-- The scan loop of lines 243-278 over the whole ticker list: each
symbol is processed independently, hits are collected in scan order, and a
symbol whose processing yields nothing (filtered out, no evidence, or an
exception swallowed by the bare `except`) is simply skipped. -/
def scanBatch (inputs : List SymbolInput) : List Candidate :=
  inputs.filterMap (fun s => processSymbol s.sym s.raw s.adx)

/-- The positional indices the per-symbol pipeline reads from a cleaned
frame: the last and second-to-last rows (price, `today`, `yesterday`), the
trailing 20-bar volume window, and for every historical signal the event
row plus — only under the `idx + 3 < len(df)` guard — the row 3 sessions
later. -/
def accessedIndices (df : List Bar) (adx : ℕ → Option ℚ) : List ℕ :=
  [df.length - 1, df.length - 2] ++
    (List.range 20).map (fun j => df.length - 21 + j) ++
    (histIndices df adx).flatMap
      (fun i => if i + 3 < df.length then [i, i + 3] else [i])

/-- An everywhere-NaN ADX column, for fixtures that never reach the
momentum comparison. -/
def noAdx : ℕ → Option ℚ := fun _ => none

/-- A strictly rising ADX column, so the momentum condition holds on every
bar after the first. -/
def wAdx : ℕ → Option ℚ := fun i => some (i : ℚ)

/-- Fixture volume column: flat 300000 with a 450000 spike on the last bar,
so the trailing average is 300000 and relative volume is exactly 1.5. -/
def wVol (j : ℕ) : ℚ := if j = 59 then 450000 else 300000

/-- Fixture frame `B`: 60 clean bars with closes rising 1..60 and the
`wVol` volume column; every bar from index 19 on fires the rule under
`wAdx`, and every counted event is a win. -/
def wRaw : List RawBar :=
  (List.range 60).map (fun (j : ℕ) =>
    ⟨some ((j : ℚ) + 1), some ((j : ℚ) + 1), some ((j : ℚ) + 1),
      some ((j : ℚ) + 1), some (wVol j)⟩)

/-- Fixture frame `A`: like `wRaw` but the close at index 57 is 55 instead
of 58, so the event at index 54 (close 55, close 3 later also 55) is
counted and lost: 37 wins out of 38. -/
def wRaw2 : List RawBar :=
  (List.range 60).map (fun (j : ℕ) =>
    ⟨some (if j = 57 then 55 else (j : ℚ) + 1),
      some (if j = 57 then 55 else (j : ℚ) + 1),
      some (if j = 57 then 55 else (j : ℚ) + 1),
      some (if j = 57 then 55 else (j : ℚ) + 1), some (wVol j)⟩)

/-- A 3-bar frame: far below the 50-bar minimum. -/
def wRawShort : List RawBar :=
  (List.range 3).map (fun _ => ⟨some 1, some 1, some 1, some 1, some 1⟩)

/-- A 50-bar frame whose last close is 0.5: long enough, but it fails the
liquidity gate on price. -/
def wRawFail : List RawBar :=
  (List.range 50).map (fun _ =>
    ⟨some 1, some 1, some 1, some (1 / 2), some 300000⟩)

/-- A two-symbol scan in which the first symbol in scan order earns win
rate 97.4 and the second 100. -/
def wPair : List SymbolInput :=
  [⟨"A", wRaw2, wAdx⟩, ⟨"B", wRaw, wAdx⟩]

/-- A positive truncated quotient certifies a nonnegative argument, and
truncation is then the floor, so it is below the argument. -/
lemma pyInt_pos_le (x : ℚ) (h : 0 < pyInt x) : 0 ≤ x ∧ ((pyInt x : ℚ) ≤ x) := by
  unfold pyInt at *
  by_cases h0 : 0 ≤ x
  · rw [if_pos h0] at h ⊢
    exact ⟨h0, Int.floor_le x⟩
  · rw [if_neg h0] at h
    push_neg at h0
    have hfl : (0 : ℤ) ≤ ⌊-x⌋ := Int.floor_nonneg.mpr (by linarith)
    omega

/-- Any order the loop body actually builds has quantity at least 1, the
ticker of the candidate, and (for a nonnegative slot) notional at most the slot. -/
lemma planOf_bounds (slot : ℚ) (c : Candidate) (p : Plan)
    (hs : 0 ≤ slot) (hp : planOf slot c = some p) :
    (p.qty : ℚ) * p.price ≤ slot ∧ 1 ≤ p.qty ∧ p.symbol = c.ticker := by
  unfold planOf at hp
  split at hp
  case isFalse => exact absurd hp (by simp)
  case isTrue hq =>
    cases hp
    refine ⟨?_, hq, rfl⟩
    obtain ⟨hx0, hfl⟩ := pyInt_pos_le _ hq
    rcases lt_trichotomy c.price 0 with hneg | hzero | hpos
    · exfalso
      have hdiv : slot / c.price ≤ 0 := by
        rw [div_eq_mul_inv]
        exact mul_nonpos_iff.mpr (Or.inl ⟨hs, inv_nonpos.mpr hneg.le⟩)
      have h1 : (1 : ℚ) ≤ (pyInt (slot / c.price) : ℚ) := by exact_mod_cast hq
      linarith
    · exfalso
      rw [hzero, div_zero] at hq
      simp [pyInt] at hq
    · calc (pyInt (slot / c.price) : ℚ) * c.price
          ≤ (slot / c.price) * c.price := mul_le_mul_of_nonneg_right hfl hpos.le
        _ = slot := div_mul_cancel₀ slot (ne_of_gt hpos)

/-- The notional of the orders built from a candidate list is bounded by
the list length times the (nonnegative) slot size. -/
lemma notional_filterMap_le (slot : ℚ) (hs : 0 ≤ slot) (l : List Candidate) :
    notional (l.filterMap (planOf slot)) ≤ (l.length : ℚ) * slot := by
  induction l with
  | nil => simp [notional]
  | cons c t ih =>
    rw [List.filterMap_cons]
    cases hpc : planOf slot c with
    | none =>
      refine le_trans ih ?_
      simp only [List.length_cons]
      push_cast
      nlinarith
    | some p =>
      have hb := (planOf_bounds slot c p hs hpc).1
      simp only [notional, List.map_cons, List.sum_cons, List.length_cons] at *
      push_cast
      nlinarith

/-- Membership is invariant under the model of the pandas descending sort. -/
lemma mem_sortDescWinRate {c : Candidate} {l : List Candidate} :
    c ∈ sortDescWinRate l ↔ c ∈ l := by
  unfold sortDescWinRate
  rw [List.mem_reverse, (List.perm_insertionSort wrLE l.reverse).mem_iff,
    List.mem_reverse]

/-- The model of the pandas descending sort preserves length. -/
lemma length_sortDescWinRate (l : List Candidate) :
    (sortDescWinRate l).length = l.length := by
  unfold sortDescWinRate
  rw [List.length_reverse, (List.perm_insertionSort wrLE l.reverse).length_eq,
    List.length_reverse]

/-- Claim C1 (amended): for every run of the position sizer with
nonnegative equity, every emitted plan has quantity at least 1 and a symbol
that is not among the held tickers (pending orders are all cancelled at the
start of the run), the total notional is at most `equity`, and at most
`maxCandidates * maxSlotCash = 20 * 5000`; candidates whose computed
quantity is 0 simply produce no plan and no error outcome. -/
theorem c1_allocation_caps (winning : List Candidate) (equity : ℚ)
    (dtc : ℕ) (held : List String) (heq : 0 ≤ equity) :
    ((execute_alpaca_trades winning equity dtc held).plans.all
        (fun p => decide (1 ≤ p.qty) && !(held.contains p.symbol))) = true
    ∧ notional (execute_alpaca_trades winning equity dtc held).plans ≤ equity
    ∧ notional (execute_alpaca_trades winning equity dtc held).plans ≤ 20 * 5000 := by
  simp only [execute_alpaca_trades]
  split_ifs with h1 h2 h3
  · exact ⟨rfl, by simpa [notional] using heq, by norm_num [notional]⟩
  · exact ⟨rfl, by simpa [notional] using heq, by norm_num [notional]⟩
  · exact ⟨rfl, by simpa [notional] using heq, by norm_num [notional]⟩
  · set F := winning.filter (fun c => !(held.contains c.ticker)) with hF
    set N := min F.length 20 with hN
    set S := min (equity / (N : ℚ)) 5000 with hS
    have hS0 : 0 ≤ S := le_min (div_nonneg heq (Nat.cast_nonneg N)) (by norm_num)
    have hNne : (N : ℚ) ≠ 0 := Nat.cast_ne_zero.mpr h3
    have hlen : (((sortDescWinRate F).take 20).length : ℚ) ≤ (N : ℚ) := by
      have : ((sortDescWinRate F).take 20).length = N := by
        rw [List.length_take, length_sortDescWinRate, Nat.min_comm]
      exact_mod_cast this.le
    have hsum := notional_filterMap_le S hS0 ((sortDescWinRate F).take 20)
    refine ⟨?_, ?_, ?_⟩
    · rw [List.all_eq_true]
      intro p hp
      obtain ⟨c, hc, hpc⟩ := List.mem_filterMap.mp hp
      obtain ⟨_, hq1, hsym⟩ := planOf_bounds S c p hS0 hpc
      have hcF : c ∈ F := mem_sortDescWinRate.mp (List.take_subset _ _ hc)
      have hck := (List.mem_filter.mp hcF).2
      simp only [Bool.and_eq_true, decide_eq_true_eq]
      exact ⟨hq1, by rw [hsym]; simpa using hck⟩
    · have hNS : (N : ℚ) * S ≤ equity := by
        have h5 : S ≤ equity / (N : ℚ) := min_le_left _ _
        calc (N : ℚ) * S ≤ (N : ℚ) * (equity / (N : ℚ)) :=
              mul_le_mul_of_nonneg_left h5 (Nat.cast_nonneg N)
          _ = equity := by rw [mul_comm, div_mul_cancel₀ equity hNne]
      refine le_trans hsum (le_trans ?_ hNS)
      exact mul_le_mul_of_nonneg_right hlen hS0
    · have hN20 : (N : ℚ) ≤ 20 := by
        have : N ≤ 20 := min_le_right _ _
        exact_mod_cast this
      have hS5 : S ≤ 5000 := min_le_right _ _
      refine le_trans hsum ?_
      calc (((sortDescWinRate F).take 20).length : ℚ) * S ≤ (N : ℚ) * S :=
            mul_le_mul_of_nonneg_right hlen hS0
        _ ≤ 20 * 5000 := mul_le_mul hN20 hS5 hS0 (by norm_num)

/-- Claim C1, counterexample to the statement as written: with equity -1,
one fresh candidate priced 10 and no PDT block, the sizer emits no plan at
all, so the committed notional is 0, which is not at most the (negative)
equity. -/
theorem c1_negative_equity_counterexample :
    (execute_alpaca_trades [⟨"A", 60, 10⟩] (-1) 0 []).plans = [] ∧
      ¬(notional (execute_alpaca_trades [⟨"A", 60, 10⟩] (-1) 0 []).plans ≤ -1) := by
  decide

/-- Claim C1, witness: a run with equity 1000, one candidate priced 10 and
ticker not held buys 100 shares; all three bounds hold. -/
theorem c1_allocation_caps_witness :
    ((execute_alpaca_trades [⟨"A", 60, 10⟩] 1000 0 ["B"]).plans.all
        (fun p => decide (1 ≤ p.qty) && !(["B"].contains p.symbol))) = true
    ∧ notional (execute_alpaca_trades [⟨"A", 60, 10⟩] 1000 0 ["B"]).plans ≤ 1000
    ∧ notional (execute_alpaca_trades [⟨"A", 60, 10⟩] 1000 0 ["B"]).plans ≤ 20 * 5000 :=
  c1_allocation_caps [⟨"A", 60, 10⟩] 1000 0 ["B"] (by norm_num)

/-- Claim C2 (amended): with equity 25000 and day-trade count 2, whenever at
least one candidate is supplied the sizer returns the blocked outcome and
zero plans, whatever the candidates and held tickers are — the PDT test
precedes all filtering and sizing and short-circuits them.  (With zero
candidates the empty-dataframe early exit fires first and reports
empty-data instead, still with zero plans.) -/
theorem c2_pdt_blocks (winning : List Candidate) (held : List String)
    (h : winning ≠ []) :
    execute_alpaca_trades winning 25000 2 held = ⟨ExecOutcome.blocked, []⟩ := by
  unfold execute_alpaca_trades
  rw [if_neg, if_pos]
  · exact ⟨by norm_num, le_refl 2⟩
  · simpa [List.isEmpty_iff] using h

/-- Claim C2, counterexample to the statement as written: with equity 25000
and day-trade count 2 but an empty candidate table, the sizer reports the
empty-data outcome, not the blocked one (the empty-dataframe check at line
99 runs before the PDT check at lines 112-114). -/
theorem c2_empty_input_counterexample :
    (execute_alpaca_trades [] 25000 2 []).outcome = ExecOutcome.emptyData ∧
      ExecOutcome.emptyData ≠ ExecOutcome.blocked := by
  decide

/-- Claim C2, witness: one good candidate, equity 25000, day-trade count 2:
blocked with zero plans. -/
theorem c2_pdt_blocks_witness :
    execute_alpaca_trades [⟨"A", 60, 10⟩] 25000 2 [] = ⟨ExecOutcome.blocked, []⟩ :=
  c2_pdt_blocks [⟨"A", 60, 10⟩] [] (by decide)

/-- Unrolling the backtest loop over any event list: the second component
counts the events with a bar 3 sessions later, the first counts those whose
close rose over the 3 sessions. -/
lemma btFold_spec (df : List Bar) (l : List ℕ) (w t : ℕ) :
    l.foldl (btStep df) (w, t) =
      (w + (l.filter (fun i => decide (i + 3 < df.length) &&
          decide (closeAt df i < closeAt df (i + 3)))).length,
        t + (l.filter (fun i => decide (i + 3 < df.length))).length) := by
  induction l generalizing w t with
  | nil => simp
  | cons i l ih =>
    by_cases h3 : i + 3 < df.length
    · by_cases hw : closeAt df i < closeAt df (i + 3)
      · simp only [List.foldl_cons, btStep, if_pos h3, if_pos hw]
        rw [ih]
        simp [List.filter_cons, h3, hw, Prod.ext_iff]
        constructor <;> omega
      · simp only [List.foldl_cons, btStep, if_pos h3, if_neg hw]
        rw [ih]
        simp [List.filter_cons, h3, hw, Prod.ext_iff]
        omega
    · simp only [List.foldl_cons, btStep, if_neg h3]
      rw [ih]
      simp [List.filter_cons, h3]

/-- Filtering on a conjunction yields no more elements than filtering on
one conjunct. -/
lemma filter_and_length_le (l : List ℕ) (p q : ℕ → Bool) :
    (l.filter (fun i => p i && q i)).length ≤ (l.filter p).length := by
  induction l with
  | nil => simp
  | cons a t ih =>
    simp only [List.filter_cons]
    cases hp : p a <;> cases hq : q a <;> simp <;> omega

/-- The backtest never counts more wins than events. -/
lemma backtest_wins_le (df : List Bar) (adx : ℕ → Option ℚ) :
    (backtest df adx).1 ≤ (backtest df adx).2 := by
  unfold backtest
  rw [btFold_spec]
  simpa using filter_and_length_le (histIndices df adx)
    (fun i => decide (i + 3 < df.length))
    (fun i => decide (closeAt df i < closeAt df (i + 3)))

/-- Claim C3: a historical signal event at index `i` is counted in `total`
exactly when a bar exists at `i + 3`, and counted as a win exactly when
additionally `close[i+3] > close[i]`; events with no bar at `i + 3`
contribute to neither tally. -/
theorem c3_backtest_horizon (df : List Bar) (adx : ℕ → Option ℚ) :
    (backtest df adx).2 = ((histIndices df adx).filter
        (fun i => decide (i + 3 < df.length))).length
    ∧ (backtest df adx).1 = ((histIndices df adx).filter
        (fun i => decide (i + 3 < df.length) &&
          decide (closeAt df i < closeAt df (i + 3)))).length := by
  unfold backtest
  rw [btFold_spec]
  simp

/-- Claim C4: a win rate exists only when `total > 0` and then lies in
[0, 100]; with `total = 0` the symbol yields no win rate and no candidate;
and a candidate is created only when a win rate exists and is at least the
55 threshold. -/
theorem c4_winrate_gating (sym : String) (price : ℚ) (df : List Bar)
    (adx : ℕ → Option ℚ) :
    (∀ r, winRate df adx = some r → 0 < (backtest df adx).2 ∧ 0 ≤ r ∧ r ≤ 100)
    ∧ ((backtest df adx).2 = 0 →
        winRate df adx = none ∧ mkCandidate sym price df adx = none)
    ∧ (∀ c, mkCandidate sym price df adx = some c →
        ∃ r, winRate df adx = some r ∧ 55 ≤ r) := by
  have hnone : (backtest df adx).2 = 0 → winRate df adx = none := by
    intro h0
    unfold winRate
    rw [if_neg]
    omega
  refine ⟨?_, ?_, ?_⟩
  · intro r hr
    unfold winRate at hr
    split at hr
    case isFalse => exact absurd hr (by simp)
    case isTrue ht =>
      have hrr : ((backtest df adx).1 : ℚ) / ((backtest df adx).2 : ℚ) * 100 = r :=
        Option.some.inj hr
      have ht2 : (0 : ℚ) < ((backtest df adx).2 : ℚ) := by exact_mod_cast ht
      have hwt : ((backtest df adx).1 : ℚ) ≤ ((backtest df adx).2 : ℚ) := by
        exact_mod_cast backtest_wins_le df adx
      refine ⟨ht, ?_, ?_⟩
      · rw [← hrr]
        positivity
      · rw [← hrr, div_mul_eq_mul_div, div_le_iff₀ ht2]
        nlinarith
  · intro h0
    refine ⟨hnone h0, ?_⟩
    unfold mkCandidate
    rw [hnone h0]
  · intro c hc
    cases hw : winRate df adx with
    | none =>
      have hmk : mkCandidate sym price df adx = none := by
        unfold mkCandidate
        rw [hw]
      rw [hmk] at hc
      exact absurd hc (by simp)
    | some r =>
      have hmk : mkCandidate sym price df adx =
          if 55 ≤ r then some ⟨sym, pyRound 1 r, pyRound 2 price⟩ else none := by
        unfold mkCandidate
        rw [hw]
      rw [hmk] at hc
      by_cases h55 : 55 ≤ r
      · exact ⟨r, rfl, h55⟩
      · rw [if_neg h55] at hc
        exact absurd hc (by simp)

/-- Claim C4, witness: on the 60-bar rising fixture the win rate exists
(38 of 38 events counted), equals 100, and the bounds hold. -/
theorem c4_winrate_gating_witness :
    0 < (backtest (dropna wRaw) wAdx).2 ∧ 0 ≤ (100 : ℚ) ∧ (100 : ℚ) ≤ 100 :=
  (c4_winrate_gating "B" 60 (dropna wRaw) wAdx).1 100 (by decide)

/-- Claim C5 (amended): the candidate list assembled by the scan loop is in
scan order and is not sorted by the code (line 282 builds it directly from
`hits`); ranking happens only inside the execution engine (line 143), whose
output is a permutation of its input sorted non-increasingly by `win_rate`.
Equal win rates follow the library default (unstable) sort there, so
first-seen order of ties is not guaranteed in general. -/
theorem c5_sizer_sort (l : List Candidate) :
    (sortDescWinRate l).Perm l ∧
      List.Sorted (fun a b : Candidate => b.winRate ≤ a.winRate)
        (sortDescWinRate l) := by
  constructor
  · exact ((List.reverse_perm _).trans
      (List.perm_insertionSort wrLE l.reverse)).trans (List.reverse_perm l)
  · have hs := List.sorted_insertionSort wrLE l.reverse
    exact List.pairwise_reverse.mpr hs

/-- Claim C5, counterexample to the statement as written: in a scan whose
first symbol earns win rate 97.4 and whose second earns 100, the emitted
candidate list is in scan order, hence not sorted non-increasingly by
`winRate`. -/
theorem c5_scan_order_counterexample :
    ¬ List.Sorted (fun a b : Candidate => b.winRate ≤ a.winRate)
      (scanBatch wPair) := by
  decide

/-- A NaN on the left of a pandas `>` comparison makes it false. -/
lemma oGT_none_left (b : Option ℚ) : oGT none b = false := by
  cases b <;> rfl

/-- A NaN on the right of a pandas `>` comparison makes it false. -/
lemma oGT_none_right (a : Option ℚ) : oGT a none = false := by
  cases a <;> rfl

/-- Claim C6: a bar whose SMA10, SMA20 or ADX is undefined fails every
boolean condition that references the undefined value — the comparison is
false, never a treatment of the value as 0 or true — and in particular the
trading rule does not fire on that bar. -/
theorem c6_undefined_fails (df : List Bar) (adx : ℕ → Option ℚ) (i : ℕ) :
    (smaAt 10 df i = none →
      oGT (some (closeAt df i)) (smaAt 10 df i) = false ∧
        oGT (smaAt 10 df i) (smaAt 20 df i) = false)
    ∧ (smaAt 20 df i = none → oGT (smaAt 10 df i) (smaAt 20 df i) = false)
    ∧ (adx i = none →
        oGT (adx i) (prevAdx adx i) = false ∧
          oGT (adx (i + 1)) (prevAdx adx (i + 1)) = false)
    ∧ ((smaAt 10 df i = none ∨ smaAt 20 df i = none ∨ adx i = none ∨
          prevAdx adx i = none) → signalAt df adx i = false) := by
  have hprev : prevAdx adx (i + 1) = adx i := by
    simp [prevAdx]
  refine ⟨fun h => ⟨?_, ?_⟩, fun h => ?_, fun h => ⟨?_, ?_⟩, fun h => ?_⟩
  · rw [h]; exact oGT_none_right _
  · rw [h]; exact oGT_none_left _
  · rw [h]; exact oGT_none_right _
  · rw [h]; exact oGT_none_left _
  · rw [hprev, h]; exact oGT_none_right _
  · rcases h with h | h | h | h <;>
      simp [signalAt, h, oGT_none_left, oGT_none_right]

/-- Claim C6, witness: on a 3-bar frame the SMA10 of bar 0 is undefined and
the rule does not fire there. -/
theorem c6_undefined_fails_witness :
    signalAt (dropna wRawShort) noAdx 0 = false :=
  (c6_undefined_fails (dropna wRawShort) noAdx 0).2.2.2 (Or.inl (by decide))

/-- Claim C7: for a cleaned frame long enough to hold it, the trailing
volume window is exactly the 20 volumes at positions `len - 21 .. len - 2`
(excluding the current bar); the gate passes exactly when the last close is
at least 1.0, relative volume is at least 1.5 and the trailing average
volume is at least 300000; and a symbol failing the gate is excluded with
no dependence on any indicator column. -/
theorem c7_liquidity_gate (sym : String) (raw : List RawBar)
    (adx : ℕ → Option ℚ) (h21 : 21 ≤ (dropna raw).length) :
    ((volWindow (dropna raw)).length = 20
      ∧ ∀ j, j < 20 → (volWindow (dropna raw)).get? j =
          (vols (dropna raw)).get? ((dropna raw).length - 21 + j))
    ∧ (passesLiquidity (dropna raw) = true ↔
        1 ≤ lastClose (dropna raw) ∧
          3 / 2 ≤ lastVol (dropna raw) / avgVol (dropna raw) ∧
          300000 ≤ avgVol (dropna raw))
    ∧ (passesLiquidity (dropna raw) = false → processSymbol sym raw adx = none) := by
  have hlenv : (vols (dropna raw)).length = (dropna raw).length :=
    List.length_map _ _
  refine ⟨⟨?_, ?_⟩, ?_, ?_⟩
  · rw [volWindow, List.length_drop, List.length_take, hlenv]
    omega
  · intro j hj
    rw [volWindow, List.get?_drop, List.get?_take]
    omega
  · rw [passesLiquidity]
    simp [not_or, not_lt]
    tauto
  · intro h
    simp only [processSymbol]
    split_ifs with h1 h2 h3 h4 h5 <;> try rfl
    rw [h] at h4
    exact absurd h4 (by simp)

/-- Claim C7, witness: the 50-bar fixture priced 0.5 has a full 20-element
trailing window but fails the gate, so the symbol is excluded. -/
theorem c7_liquidity_gate_witness :
    (volWindow (dropna wRawFail)).length = 20 ∧
      processSymbol "X" wRawFail noAdx = none :=
  ⟨((c7_liquidity_gate "X" wRawFail noAdx (by decide)).1).1,
    (c7_liquidity_gate "X" wRawFail noAdx (by decide)).2.2 (by decide)⟩

/-- Claim C8: a symbol whose cleaned series has fewer than 50 bars is
excluded, for every possible indicator column — no indicator enters the
decision. -/
theorem c8_min_bars (sym : String) (raw : List RawBar) (adx : ℕ → Option ℚ)
    (h : (dropna raw).length < 50) : processSymbol sym raw adx = none := by
  simp only [processSymbol]
  split_ifs with h1 h2 <;> rfl

/-- Claim C8, witness: a 3-bar frame is excluded. -/
theorem c8_min_bars_witness : processSymbol "X" wRawShort noAdx = none :=
  c8_min_bars "X" wRawShort noAdx (by decide)

/-- Claim C9: a symbol whose per-symbol processing produces nothing — any
filtered, failed or exception-swallowed symbol — leaves the rest of the
batch unchanged; no per-symbol failure aborts the run. -/
theorem c9_batch_isolation (pre post : List SymbolInput) (bad : SymbolInput)
    (h : processSymbol bad.sym bad.raw bad.adx = none) :
    scanBatch (pre ++ bad :: post) = scanBatch (pre ++ post) := by
  unfold scanBatch
  simp only [List.filterMap_append, List.filterMap_cons, h]

/-- Claim C9, witness: a malformed 3-bar symbol inserted after a good one
leaves the candidate of the good symbol as the whole output. -/
theorem c9_batch_isolation_witness :
    scanBatch [⟨"B", wRaw, wAdx⟩, ⟨"X", wRawShort, noAdx⟩] =
      scanBatch [⟨"B", wRaw, wAdx⟩] := by
  have h := c9_batch_isolation [⟨"B", wRaw, wAdx⟩] [] ⟨"X", wRawShort, noAdx⟩
    (by decide)
  simpa using h

/-- Claim C10: with at least 50 cleaned bars, every positional index the
per-symbol pipeline reads — last bar, second-to-last bar, the 20-bar
trailing volume window, each historical signal index, and the guarded
3-ahead index — is within the frame. -/
theorem c10_index_bounds (df : List Bar) (adx : ℕ → Option ℚ)
    (h : 50 ≤ df.length) :
    (accessedIndices df adx).all (fun a => decide (a < df.length)) = true := by
  rw [List.all_eq_true]
  intro a ha
  simp only [decide_eq_true_eq]
  rw [accessedIndices] at ha
  rcases List.mem_append.mp ha with h1 | hrest
  · rcases List.mem_append.mp h1 with h2 | h3
    · simp only [List.mem_cons, List.mem_singleton] at h2
      rcases h2 with rfl | rfl | hx
      · omega
      · omega
      · exact absurd hx (List.not_mem_nil a)
    · obtain ⟨j, hj, rfl⟩ := List.mem_map.mp h3
      rw [List.mem_range] at hj
      omega
  · obtain ⟨i, hi, hai⟩ := List.mem_flatMap.mp hrest
    have hin : i < df.length := by
      have h2 : i < df.length ∧ signalAt df adx i = true := by
        simpa [histIndices, List.mem_filter] using hi
      exact h2.1
    by_cases h3 : i + 3 < df.length
    · rw [if_pos h3] at hai
      simp only [List.mem_cons, List.mem_singleton] at hai
      rcases hai with rfl | rfl | hx
      · exact hin
      · exact h3
      · exact absurd hx (List.not_mem_nil a)
    · rw [if_neg h3] at hai
      simp only [List.mem_singleton] at hai
      subst hai
      exact hin

/-- Claim C10, witness: all indices the pipeline reads on the 60-bar
fixture are in bounds. -/
theorem c10_index_bounds_witness :
    (accessedIndices (dropna wRaw) wAdx).all
      (fun a => decide (a < (dropna wRaw).length)) = true :=
  c10_index_bounds (dropna wRaw) wAdx (by decide)

